import Mathlib

/-!
Shallow embedding of the Position hierarchy and access-group logic of the
employee-management repository (`src/apps/accounts/models/position.py`,
`src/apps/accounts/models/user.py`), together with the relational-store
behaviour declared on the model fields (`unique=True` on `code`,
`on_delete=PROTECT` on `parent`, `on_delete=SET_NULL` on `group`).

The store is a value of type `Db`: a list of position rows, a list of
access-group rows, and fresh-id counters standing in for primary-key
assignment. `Position.save` is split into `createPosition` (the `is_new`
path) and `updatePosition` (the existing-row path), each performing the
side effects in exactly the order of the source: group creation or group
rename first, then `clean()` (the hierarchy check), then the row write
(where the unique constraint on `code` is enforced by the store).
`hardDelete` embeds `Position.hard_delete`: the linked group is deleted
first (`SET_NULL` clears the link on any row pointing at it), then the row
delete runs the `PROTECT` check on `parent` references.
-/

namespace EmployeeMgmt

/-- A Django auth Group row: the AccessGroup of the spec. -/
structure AccessGroup where
  id : Nat
  name : String
deriving DecidableEq, Repr

/-- A persisted Position row. `parent` and `group` are foreign keys (row ids). -/
structure Position where
  id : Nat
  name : String
  code : String
  level : Nat
  parent : Option Nat
  group : Option Nat
deriving DecidableEq, Repr

/-- The relational store: position rows, group rows, and fresh-id counters. -/
structure Db where
  positions : List Position
  groups : List AccessGroup
  nextPositionId : Nat
  nextGroupId : Nat
deriving DecidableEq, Repr

/-- Errors a write can raise, named after the typed failures of the spec.
`invalidHierarchy` is the `ValidationError` raised by `Position.clean`;
`duplicateCode` is the integrity error of the `unique=True` constraint on
`code`; `parentNotFound` / `notFound` are dangling-reference fetches. -/
inductive SaveError
  | invalidHierarchy
  | duplicateCode
  | parentNotFound
  | notFound
deriving DecidableEq, Repr

/-- Errors `hard_delete` can raise: `protectedError` is the `ProtectedError`
of the `on_delete=PROTECT` option on `Position.parent` (the spec names it
`HasSubordinates`). -/
inductive DeleteError
  | protectedError
  | notFound
deriving DecidableEq, Repr

/-- The in-memory field values handed to `save()` for a new row (`pk is None`). -/
structure PositionData where
  name : String
  code : String
  level : Nat
  parent : Option Nat
  group : Option Nat
deriving DecidableEq, Repr

/-- Look a position row up by primary key in a row list. -/
def findPos (ps : List Position) (pid : Nat) : Option Position :=
  ps.find? (fun p => p.id == pid)

/-- Look a position row up by primary key. -/
def findPosition (db : Db) (pid : Nat) : Option Position :=
  findPos db.positions pid

/-- Look a group row up by primary key. -/
def findGroup (db : Db) (gid : Nat) : Option AccessGroup :=
  db.groups.find? (fun g => g.id == gid)

/-- `Position.clean`: raises `invalidHierarchy` when `parent` is set and
`parent.level >= self.level` (position.py lines 60-64). The parent level is
read from the current store; a dangling parent reference fails the fetch. -/
def cleanCheck (ps : List Position) (parent : Option Nat) (level : Nat) : Option SaveError :=
  match parent with
  | none => none
  | some pid =>
    match findPos ps pid with
    | none => some SaveError.parentNotFound
    | some par => if level ≤ par.level then some SaveError.invalidHierarchy else none

/-- True when some existing row already carries this code (the INSERT case of
the `unique=True` constraint on `code`). -/
def codeClashOnCreate (db : Db) (code : String) : Bool :=
  db.positions.any (fun q => q.code == code)

/-- True when some other row (different pk) already carries this code (the
UPDATE case of the `unique=True` constraint on `code`). -/
def codeClashOnUpdate (db : Db) (pid : Nat) (code : String) : Bool :=
  db.positions.any (fun q => q.id != pid && q.code == code)

/-- The tail of `save()` on the `is_new` path: `self.clean()` then
`super().save()`, which INSERTs the row under a fresh pk subject to the
unique constraint on `code`. -/
def insertRow (db : Db) (pd : PositionData) : Db × Option SaveError :=
  match cleanCheck db.positions pd.parent pd.level with
  | some e => (db, some e)
  | none =>
    if codeClashOnCreate db pd.code then (db, some SaveError.duplicateCode)
    else
      ({ db with
          positions := db.positions ++
            [⟨db.nextPositionId, pd.name, pd.code, pd.level, pd.parent, pd.group⟩],
          nextPositionId := db.nextPositionId + 1 }, none)

/-- `Position.save` with `pk is None` (position.py lines 66-79): when no group
is linked, a Group named "Position: {name}" is created and linked FIRST, then
`clean()` runs, then the row is written. A failed validation therefore leaves
the freshly created group behind. -/
def createPosition (db : Db) (pd : PositionData) : Db × Option SaveError :=
  match pd.group with
  | none =>
    insertRow
      { db with
          groups := db.groups ++ [⟨db.nextGroupId, "Position: " ++ pd.name⟩],
          nextGroupId := db.nextGroupId + 1 }
      { pd with group := some db.nextGroupId }
  | some _ => insertRow db pd

/-- The tail of `save()` on the existing-row path: `self.clean()` then
`super().save()`, which UPDATEs the row in place subject to the unique
constraint on `code`. -/
def saveUpdateRow (db : Db) (p : Position) : Db × Option SaveError :=
  match cleanCheck db.positions p.parent p.level with
  | some e => (db, some e)
  | none =>
    if codeClashOnUpdate db p.id p.code then (db, some SaveError.duplicateCode)
    else
      ({ db with
          positions := db.positions.map (fun q => if q.id == p.id then p else q) }, none)

/-- `Position.save` with an existing pk (position.py lines 66-79): when a group
is linked, the old row is fetched and, if the name changed, the linked group is
renamed to "Position: {name}" and saved FIRST; then `clean()` runs, then the
row is written. -/
def updatePosition (db : Db) (p : Position) : Db × Option SaveError :=
  match p.group with
  | some gid =>
    match findPosition db p.id with
    | none => (db, some SaveError.notFound)
    | some old =>
      saveUpdateRow
        (if old.name ≠ p.name then
          { db with
              groups := db.groups.map (fun g =>
                if g.id == gid then { g with name := "Position: " ++ p.name } else g) }
         else db) p
  | none => saveUpdateRow db p

/-- Deleting a Group row: the row is removed and, because `Position.group` is
declared `on_delete=SET_NULL`, every position row linked to it has its link
cleared. -/
def deleteGroup (db : Db) (gid : Nat) : Db :=
  { db with
      groups := db.groups.filter (fun g => g.id != gid),
      positions := db.positions.map (fun p =>
        if p.group == some gid then { p with group := none } else p) }

/-- True when some other row references `pid` as its parent: the condition the
`on_delete=PROTECT` option on `Position.parent` checks before the row delete. -/
def hasSubordinates (db : Db) (pid : Nat) : Bool :=
  db.positions.any (fun q => q.id != pid && q.parent == some pid)

/-- The row-delete step of `hard_delete` (`super(AuditModel, self).delete()`,
which bypasses the soft-delete override and removes the row): the store
rejects it with `protectedError` while any subordinate row references this one
as parent, and removes the row otherwise. -/
def deleteRow (db : Db) (pid : Nat) : Db × Option DeleteError :=
  if hasSubordinates db pid then (db, some DeleteError.protectedError)
  else ({ db with positions := db.positions.filter (fun q => q.id != pid) }, none)

/-- `Position.hard_delete` (position.py lines 88-93): the linked group, if
any, is deleted FIRST; then the row delete runs. -/
def hardDelete (db : Db) (pid : Nat) : Db × Option DeleteError :=
  match findPosition db pid with
  | none => (db, some DeleteError.notFound)
  | some p =>
    deleteRow
      (match p.group with
       | some gid => deleteGroup db gid
       | none => db) pid

/-- A User as far as membership sync is concerned: its pk and its optional
Position reference (user.py lines 67-74). -/
structure SyncUser where
  id : Nat
  position : Option Nat
deriving DecidableEq, Repr

/-- The state `syncMembers` acts on: position rows, users, and the user-group
membership table. -/
structure SyncState where
  positions : List Position
  users : List SyncUser
  memberships : List (Nat × Nat)
deriving DecidableEq, Repr

/-- True when `gid` is the linked group of some position: a position-derived
group in the sense of the spec. -/
def positionLinkedGroup (st : SyncState) (gid : Nat) : Bool :=
  st.positions.any (fun q => q.group == some gid)

/-- True when user `uid` holds position `pid`. -/
def holdsPosition (st : SyncState) (pid uid : Nat) : Bool :=
  st.users.any (fun u => u.id == uid && u.position == some pid)

/-- Modelled from the spec: the operation `syncMembers` of GroupMembershipSync
(spec section 4.2) has no implementation under src/ (only the `User.position`
reference it reads is there). Following the words of the spec: for each user
holding the position, clear every membership of that user in any
position-linked group, then add membership in the position's linked group; a
no-op when the position has no linked group. -/
def syncMembers (st : SyncState) (p : Position) : SyncState :=
  match p.group with
  | none => st
  | some g =>
    { st with
        memberships :=
          st.memberships.filter (fun m =>
            !(holdsPosition st p.id m.1 && positionLinkedGroup st m.2))
          ++ (st.users.filter (fun u => u.position == some p.id)).map (fun u => (u.id, g)) }

/-- Invariant I2 of the spec: no two position rows share a code. -/
def codesUnique (db : Db) : Prop :=
  db.positions.Pairwise (fun a b => a.code ≠ b.code)

/-- Primary keys are unique among position rows (guaranteed by the store). -/
def idsUnique (db : Db) : Prop :=
  db.positions.Pairwise (fun a b => a.id ≠ b.id)

/-! Concrete fixtures used by counterexamples and witnesses. `dbAB` is the
two-row store produced by creating position A (level 1, code STF) and then
position B (level 2, code SPV, parent A), each with its auto-created group. -/

/-- The empty store. -/
def dbEmpty : Db := ⟨[], [], 0, 0⟩

/-- Position A: level 1 root, code STF, linked to group 0. -/
def posA : Position := ⟨0, "A", "STF", 1, none, some 0⟩

/-- Position B: level 2, code SPV, parent A, linked to group 1. -/
def posB : Position := ⟨1, "B", "SPV", 2, some 0, some 1⟩

/-- The store holding A and B with their auto-created groups. -/
def dbAB : Db := ⟨[posA, posB], [⟨0, "Position: A"⟩, ⟨1, "Position: B"⟩], 2, 2⟩

/-- The in-memory state saving A with its level raised to 3. -/
def pA3 : Position := ⟨0, "A", "STF", 3, none, some 0⟩

/-- New-row data for C: level 1 with parent B (level 2), an invalid hierarchy. -/
def pdC : PositionData := ⟨"C", "MGR", 1, some 1, none⟩

/-- New-row data for Z: a root with level 0. -/
def pdZ : PositionData := ⟨"Z", "Z0", 0, none, none⟩

/-- New-row data for A: level 1 root, code STF, no group. -/
def pdA : PositionData := ⟨"A", "STF", 1, none, none⟩

/-- New-row data for D: a fresh root reusing the already-taken code STF. -/
def pdD : PositionData := ⟨"D", "STF", 5, none, none⟩

/-- The in-memory state renaming B to B2. -/
def pB2 : Position := ⟨1, "B2", "SPV", 2, some 0, some 1⟩

/-- The in-memory state saving A with its group link unset. -/
def pA0 : Position := ⟨0, "A", "STF", 1, none, none⟩

/-- A sync state where users 7 and 8 hold position B; user 7 is still a member
of the position-linked group 0, user 8 of the unrelated group 99. -/
def stW : SyncState := ⟨[posA, posB], [⟨7, some 1⟩, ⟨8, some 1⟩], [(7, 0), (8, 99)]⟩

/-! Helper lemmas about the embedded operations. -/

theorem cleanCheck_none_iff (ps : List Position) (pid : Nat) (par : Position) (level : Nat)
    (hp : findPos ps pid = some par) :
    cleanCheck ps (some pid) level = none ↔ par.level < level := by
  simp only [cleanCheck, hp]
  by_cases hc : level ≤ par.level
  · simp only [if_pos hc]
    constructor
    · intro h
      exact absurd h (by simp)
    · intro h
      omega
  · simp only [if_neg hc]
    constructor
    · intro _
      omega
    · intro _
      trivial

theorem cleanCheck_invalid (ps : List Position) (pid : Nat) (par : Position) (level : Nat)
    (hp : findPos ps pid = some par) (hle : level ≤ par.level) :
    cleanCheck ps (some pid) level = some SaveError.invalidHierarchy := by
  simp only [cleanCheck, hp]
  simp [hle]

theorem insertRow_groups (db : Db) (pd : PositionData) :
    (insertRow db pd).1.groups = db.groups := by
  unfold insertRow
  split
  · rfl
  · split <;> rfl

theorem insertRow_err_eq (db : Db) (pd : PositionData) (e : SaveError)
    (h : (insertRow db pd).2 = some e) : (insertRow db pd).1 = db := by
  unfold insertRow at h ⊢
  split at h
  · rfl
  · split at h
    · simp_all
    · simp_all

theorem insertRow_ok_clean (db : Db) (pd : PositionData)
    (h : (insertRow db pd).2 = none) :
    cleanCheck db.positions pd.parent pd.level = none := by
  unfold insertRow at h
  split at h
  · simp_all
  · assumption

theorem insertRow_ok_noclash (db : Db) (pd : PositionData)
    (h : (insertRow db pd).2 = none) :
    codeClashOnCreate db pd.code = false := by
  unfold insertRow at h
  split at h
  · simp_all
  · split at h
    · simp_all
    · simp_all

theorem insertRow_ok_positions (db : Db) (pd : PositionData)
    (h : (insertRow db pd).2 = none) :
    (insertRow db pd).1.positions =
      db.positions ++ [⟨db.nextPositionId, pd.name, pd.code, pd.level, pd.parent, pd.group⟩] := by
  unfold insertRow at h ⊢
  split at h
  · simp_all
  · split at h
    · simp_all
    · simp_all


theorem insertRow_clean_err (db : Db) (pd : PositionData) (e : SaveError)
    (h : cleanCheck db.positions pd.parent pd.level = some e) :
    insertRow db pd = (db, some e) := by
  unfold insertRow
  split <;> simp_all

theorem insertRow_clash (db : Db) (pd : PositionData)
    (hclean : cleanCheck db.positions pd.parent pd.level = none)
    (hclash : codeClashOnCreate db pd.code = true) :
    insertRow db pd = (db, some SaveError.duplicateCode) := by
  unfold insertRow
  split <;> simp_all

theorem saveUpdateRow_groups (db : Db) (p : Position) :
    (saveUpdateRow db p).1.groups = db.groups := by
  unfold saveUpdateRow
  split
  · rfl
  · split <;> rfl

theorem saveUpdateRow_err_eq (db : Db) (p : Position) (e : SaveError)
    (h : (saveUpdateRow db p).2 = some e) : (saveUpdateRow db p).1 = db := by
  unfold saveUpdateRow at h ⊢
  split at h
  · rfl
  · split at h
    · simp_all
    · simp_all

theorem saveUpdateRow_ok_clean (db : Db) (p : Position)
    (h : (saveUpdateRow db p).2 = none) :
    cleanCheck db.positions p.parent p.level = none := by
  unfold saveUpdateRow at h
  split at h
  · simp_all
  · assumption

theorem saveUpdateRow_ok_noclash (db : Db) (p : Position)
    (h : (saveUpdateRow db p).2 = none) :
    codeClashOnUpdate db p.id p.code = false := by
  unfold saveUpdateRow at h
  split at h
  · simp_all
  · split at h
    · simp_all
    · simp_all

theorem saveUpdateRow_ok_positions (db : Db) (p : Position)
    (h : (saveUpdateRow db p).2 = none) :
    (saveUpdateRow db p).1.positions =
      db.positions.map (fun q => if q.id == p.id then p else q) := by
  unfold saveUpdateRow at h ⊢
  split at h
  · simp_all
  · split at h
    · simp_all
    · simp_all

theorem saveUpdateRow_clean_err (db : Db) (p : Position) (e : SaveError)
    (h : cleanCheck db.positions p.parent p.level = some e) :
    saveUpdateRow db p = (db, some e) := by
  unfold saveUpdateRow
  split <;> simp_all

theorem saveUpdateRow_clash (db : Db) (p : Position)
    (hclean : cleanCheck db.positions p.parent p.level = none)
    (hclash : codeClashOnUpdate db p.id p.code = true) :
    saveUpdateRow db p = (db, some SaveError.duplicateCode) := by
  unfold saveUpdateRow
  split <;> simp_all

theorem createPosition_ok_clean (db : Db) (pd : PositionData)
    (h : (createPosition db pd).2 = none) :
    cleanCheck db.positions pd.parent pd.level = none := by
  cases hg : pd.group with
  | none =>
    simp only [createPosition, hg] at h
    have h2 := insertRow_ok_clean _ _ h
    exact h2
  | some g =>
    simp only [createPosition, hg] at h
    have h2 := insertRow_ok_clean _ _ h
    exact h2

theorem createPosition_ok_noclash (db : Db) (pd : PositionData)
    (h : (createPosition db pd).2 = none) :
    codeClashOnCreate db pd.code = false := by
  cases hg : pd.group with
  | none =>
    simp only [createPosition, hg] at h
    have h2 := insertRow_ok_noclash _ _ h
    exact h2
  | some g =>
    simp only [createPosition, hg] at h
    have h2 := insertRow_ok_noclash _ _ h
    exact h2

theorem createPosition_ok_positions (db : Db) (pd : PositionData)
    (h : (createPosition db pd).2 = none) :
    ∃ g, (createPosition db pd).1.positions =
      db.positions ++ [⟨db.nextPositionId, pd.name, pd.code, pd.level, pd.parent, g⟩] := by
  cases hg : pd.group with
  | none =>
    simp only [createPosition, hg] at h ⊢
    have h2 := insertRow_ok_positions _ _ h
    exact ⟨some db.nextGroupId, h2⟩
  | some g =>
    simp only [createPosition, hg] at h ⊢
    have h2 := insertRow_ok_positions _ _ h
    exact ⟨some g, hg ▸ h2⟩

theorem createPosition_err_positions (db : Db) (pd : PositionData) (e : SaveError)
    (h : (createPosition db pd).2 = some e) :
    (createPosition db pd).1.positions = db.positions := by
  cases hg : pd.group with
  | none =>
    simp only [createPosition, hg] at h ⊢
    have h2 := insertRow_err_eq _ _ _ h
    rw [h2]
  | some g =>
    simp only [createPosition, hg] at h ⊢
    have h2 := insertRow_err_eq _ _ _ h
    rw [h2]

theorem createPosition_clean_err (db : Db) (pd : PositionData) (e : SaveError)
    (h : cleanCheck db.positions pd.parent pd.level = some e) :
    (createPosition db pd).2 = some e ∧
    (createPosition db pd).1.positions = db.positions := by
  cases hg : pd.group with
  | none =>
    simp only [createPosition, hg]
    unfold insertRow
    rw [h]
    exact ⟨rfl, rfl⟩
  | some g =>
    simp only [createPosition, hg]
    unfold insertRow
    rw [h]
    exact ⟨rfl, rfl⟩

theorem createPosition_groups_of_no_group (db : Db) (pd : PositionData)
    (hg : pd.group = none) :
    (createPosition db pd).1.groups =
      db.groups ++ [⟨db.nextGroupId, "Position: " ++ pd.name⟩] := by
  simp only [createPosition, hg]
  have h2 := insertRow_groups
    { db with
        groups := db.groups ++ [⟨db.nextGroupId, "Position: " ++ pd.name⟩],
        nextGroupId := db.nextGroupId + 1 }
    { pd with group := some db.nextGroupId }
  exact h2

theorem updatePosition_ok_clean (db : Db) (p : Position)
    (h : (updatePosition db p).2 = none) :
    cleanCheck db.positions p.parent p.level = none := by
  cases hg : p.group with
  | none =>
    simp only [updatePosition, hg] at h
    have h2 := saveUpdateRow_ok_clean _ _ h
    exact h2
  | some gid =>
    cases hf : findPosition db p.id with
    | none =>
      simp only [updatePosition, hg, hf] at h
      simp at h
    | some old =>
      by_cases hn : old.name ≠ p.name
      · simp only [updatePosition, hg, hf] at h
        rw [if_pos hn] at h
        have h2 := saveUpdateRow_ok_clean _ _ h
        exact h2
      · simp only [updatePosition, hg, hf] at h
        rw [if_neg hn] at h
        have h2 := saveUpdateRow_ok_clean _ _ h
        exact h2

theorem updatePosition_ok_noclash (db : Db) (p : Position)
    (h : (updatePosition db p).2 = none) :
    codeClashOnUpdate db p.id p.code = false := by
  cases hg : p.group with
  | none =>
    simp only [updatePosition, hg] at h
    have h2 := saveUpdateRow_ok_noclash _ _ h
    exact h2
  | some gid =>
    cases hf : findPosition db p.id with
    | none =>
      simp only [updatePosition, hg, hf] at h
      simp at h
    | some old =>
      by_cases hn : old.name ≠ p.name
      · simp only [updatePosition, hg, hf] at h
        rw [if_pos hn] at h
        have h2 := saveUpdateRow_ok_noclash _ _ h
        exact h2
      · simp only [updatePosition, hg, hf] at h
        rw [if_neg hn] at h
        have h2 := saveUpdateRow_ok_noclash _ _ h
        exact h2

theorem updatePosition_ok_positions (db : Db) (p : Position)
    (h : (updatePosition db p).2 = none) :
    (updatePosition db p).1.positions =
      db.positions.map (fun q => if q.id == p.id then p else q) := by
  cases hg : p.group with
  | none =>
    simp only [updatePosition, hg] at h ⊢
    have h2 := saveUpdateRow_ok_positions _ _ h
    exact h2
  | some gid =>
    cases hf : findPosition db p.id with
    | none =>
      simp only [updatePosition, hg, hf] at h
      simp at h
    | some old =>
      by_cases hn : old.name ≠ p.name
      · simp only [updatePosition, hg, hf] at h ⊢
        rw [if_pos hn] at h ⊢
        have h2 := saveUpdateRow_ok_positions _ _ h
        exact h2
      · simp only [updatePosition, hg, hf] at h ⊢
        rw [if_neg hn] at h ⊢
        have h2 := saveUpdateRow_ok_positions _ _ h
        exact h2

theorem updatePosition_err_positions (db : Db) (p : Position) (e : SaveError)
    (h : (updatePosition db p).2 = some e) :
    (updatePosition db p).1.positions = db.positions := by
  cases hg : p.group with
  | none =>
    simp only [updatePosition, hg] at h ⊢
    have h2 := saveUpdateRow_err_eq _ _ _ h
    rw [h2]
  | some gid =>
    cases hf : findPosition db p.id with
    | none => simp only [updatePosition, hg, hf]
    | some old =>
      by_cases hn : old.name ≠ p.name
      · simp only [updatePosition, hg, hf] at h ⊢
        rw [if_pos hn] at h ⊢
        have h2 := saveUpdateRow_err_eq _ _ _ h
        rw [h2]
      · simp only [updatePosition, hg, hf] at h ⊢
        rw [if_neg hn] at h ⊢
        have h2 := saveUpdateRow_err_eq _ _ _ h
        rw [h2]

theorem updatePosition_clean_err (db : Db) (p old : Position) (e : SaveError)
    (hold : findPosition db p.id = some old)
    (h : cleanCheck db.positions p.parent p.level = some e) :
    (updatePosition db p).2 = some e ∧
    (updatePosition db p).1.positions = db.positions := by
  cases hg : p.group with
  | none =>
    simp only [updatePosition, hg]
    unfold saveUpdateRow
    rw [h]
    exact ⟨rfl, rfl⟩
  | some gid =>
    by_cases hn : old.name ≠ p.name
    · simp only [updatePosition, hg, hold]
      rw [if_pos hn]
      unfold saveUpdateRow
      rw [h]
      exact ⟨rfl, rfl⟩
    · simp only [updatePosition, hg, hold]
      rw [if_neg hn]
      unfold saveUpdateRow
      rw [h]
      exact ⟨rfl, rfl⟩

theorem find?_append_of_none {α : Type} (l1 l2 : List α) (f : α → Bool)
    (h : l1.find? f = none) : (l1 ++ l2).find? f = l2.find? f := by
  simp [List.find?_append, h]

theorem find?_rename (l : List AccessGroup) (gid : Nat) (nm : String) (grp : AccessGroup)
    (h : l.find? (fun g => g.id == gid) = some grp) :
    (l.map (fun g => if g.id == gid then { g with name := nm } else g)).find?
      (fun g => g.id == gid) = some ⟨grp.id, nm⟩ := by
  have hgrp : (grp.id == gid) = true :=
    @List.find?_some AccessGroup (fun g => g.id == gid) grp l h
  have hcomp : ((fun (g : AccessGroup) => g.id == gid) ∘
      (fun g => if (g.id == gid) = true then { id := g.id, name := nm } else g)) =
      (fun (g : AccessGroup) => g.id == gid) := by
    funext g
    by_cases hgid : (g.id == gid) = true
    · simp [Function.comp, hgid]
    · simp [Function.comp, hgid]
  have hgid : grp.id = gid := by simpa using hgrp
  rw [List.find?_map, hcomp, h]
  simp [hgid]

/-! The claims. -/

/-- C1 counterexample: hierarchy invariant I1 is not global. In `dbAB`
(A level 1 with subordinate B level 2) the update raising A to level 3 is
accepted, after which B still references A as parent while the parent level
3 is no longer below the child level 2. -/
theorem c1_invariant_not_global_counterexample :
    (updatePosition dbAB pA3).2 = none ∧
    findPosition (updatePosition dbAB pA3).1 1 = some posB ∧
    posB.parent = some pA3.id ∧
    findPosition (updatePosition dbAB pA3).1 pA3.id = some pA3 ∧
    ¬ pA3.level < posB.level := by decide

/-- C1 (amended): the hierarchy check of `Position.clean` covers only the row
being written. After a successful create or update the written row has
parent level strictly below its own, and a write whose own parent relation
violates the rule is rejected with `invalidHierarchy` leaving the position
table unchanged; the invariant is not restored for subordinates of an
updated row (see the counterexample). -/
theorem c1_hierarchy_check_scope (db : Db) (pd : PositionData) (p old par : Position)
    (pid : Nat) :
    ((createPosition db pd).2 = none → pd.parent = some pid →
      findPosition db pid = some par → par.level < pd.level) ∧
    ((updatePosition db p).2 = none → p.parent = some pid →
      findPosition db pid = some par → par.level < p.level) ∧
    (pd.parent = some pid → findPosition db pid = some par → pd.level ≤ par.level →
      (createPosition db pd).2 = some SaveError.invalidHierarchy ∧
      (createPosition db pd).1.positions = db.positions) ∧
    (p.parent = some pid → findPosition db pid = some par → p.level ≤ par.level →
      findPosition db p.id = some old →
      (updatePosition db p).2 = some SaveError.invalidHierarchy ∧
      (updatePosition db p).1.positions = db.positions) := by
  refine ⟨?_, ?_, ?_, ?_⟩
  · intro hok hp hf
    have hc := createPosition_ok_clean db pd hok
    rw [hp] at hc
    exact (cleanCheck_none_iff db.positions pid par pd.level hf).mp hc
  · intro hok hp hf
    have hc := updatePosition_ok_clean db p hok
    rw [hp] at hc
    exact (cleanCheck_none_iff db.positions pid par p.level hf).mp hc
  · intro hp hf hle
    have hc := cleanCheck_invalid db.positions pid par pd.level hf hle
    rw [← hp] at hc
    exact createPosition_clean_err db pd SaveError.invalidHierarchy hc
  · intro hp hf hle hold
    have hc := cleanCheck_invalid db.positions pid par p.level hf hle
    rw [← hp] at hc
    exact updatePosition_clean_err db p old SaveError.invalidHierarchy hold hc

/-- C1 witness: creating C (level 1) under parent B (level 2) is rejected with
`invalidHierarchy` and writes no row. -/
theorem c1_hierarchy_check_scope_witness :
    (createPosition dbAB pdC).2 = some SaveError.invalidHierarchy ∧
    (createPosition dbAB pdC).1.positions = dbAB.positions :=
  (c1_hierarchy_check_scope dbAB pdC posA posA posB 1).2.2.1 rfl (by decide) (by decide)

/-- C2 counterexample: a create rejected by hierarchy validation is not free
of side effects: creating C under parent B fails with `invalidHierarchy`, yet
a fresh AccessGroup "Position: C" (id 2) exists afterwards, created and
linked before validation ran. -/
theorem c2_rejected_write_side_effect_counterexample :
    (createPosition dbAB pdC).2 = some SaveError.invalidHierarchy ∧
    findGroup dbAB 2 = none ∧
    findGroup (createPosition dbAB pdC).1 2 = some ⟨2, "Position: C"⟩ := by decide

/-- C2 (amended): a rejected create or update never writes the Position row,
but the group side effects that run before validation persist: a create with
no linked group appends the auto-created group whatever the outcome, and an
update of a group-linked row whose name changed renames the group whatever
the outcome. -/
theorem c2_rejection_leaves_group_side_effects (db : Db) (pd : PositionData)
    (p old : Position) (gid : Nat) (e : SaveError) :
    ((createPosition db pd).2 = some e →
      (createPosition db pd).1.positions = db.positions) ∧
    ((updatePosition db p).2 = some e →
      (updatePosition db p).1.positions = db.positions) ∧
    (pd.group = none →
      (createPosition db pd).1.groups =
        db.groups ++ [⟨db.nextGroupId, "Position: " ++ pd.name⟩]) ∧
    (p.group = some gid → findPosition db p.id = some old → old.name ≠ p.name →
      (updatePosition db p).1.groups = db.groups.map (fun g =>
        if g.id == gid then { g with name := "Position: " ++ p.name } else g)) := by
  refine ⟨createPosition_err_positions db pd e, updatePosition_err_positions db p e,
    createPosition_groups_of_no_group db pd, ?_⟩
  intro hg hold hn
  simp only [updatePosition, hg, hold]
  rw [if_pos hn]
  exact saveUpdateRow_groups _ p

/-- C2 witness: the rejected create of C leaves the position table unchanged. -/
theorem c2_rejection_leaves_group_side_effects_witness :
    (createPosition dbAB pdC).1.positions = dbAB.positions :=
  (c2_rejection_leaves_group_side_effects dbAB pdC posA posA 0
    SaveError.invalidHierarchy).1 (by decide)

/-- C9 counterexample: `level` is a `PositiveSmallIntegerField`, which admits
zero: creating root Z with level 0 succeeds and the stored row has level 0. -/
theorem c9_level_zero_accepted_counterexample :
    (createPosition dbEmpty pdZ).2 = none ∧
    findPosition (createPosition dbEmpty pdZ).1 0 =
      some ⟨0, "Z", "Z0", 0, none, some 0⟩ := by decide

/-- C9 (amended): no positivity check on `level` exists anywhere in the write
path. A root create with an unused code is accepted whatever its level, zero
included; only when a parent is set is a level-0 write rejected, as a side
effect of the hierarchy check (any level at or below the parent level
fails). -/
theorem c9_no_level_positivity_check (db : Db) (pd : PositionData) (pid : Nat)
    (par : Position) :
    (pd.parent = none → codeClashOnCreate db pd.code = false →
      (createPosition db pd).2 = none) ∧
    (pd.parent = some pid → findPosition db pid = some par → pd.level = 0 →
      (createPosition db pd).2 = some SaveError.invalidHierarchy) := by
  constructor
  · intro hp hc
    have hc2 : db.positions.any (fun q => q.code == pd.code) = false := hc
    cases hg : pd.group with
    | none => simp [createPosition, hg, insertRow, cleanCheck, codeClashOnCreate, hp, hc2]
    | some g => simp [createPosition, hg, insertRow, cleanCheck, codeClashOnCreate, hp, hc2]
  · intro hp hf hl
    have hc := cleanCheck_invalid db.positions pid par pd.level hf (by omega)
    rw [← hp] at hc
    exact (createPosition_clean_err db pd SaveError.invalidHierarchy hc).1

/-- C9 witness: the level-0 root Z is accepted. -/
theorem c9_no_level_positivity_check_witness :
    (createPosition dbEmpty pdZ).2 = none :=
  (c9_no_level_positivity_check dbEmpty pdZ 0 posA).1 rfl (by decide)

/-- C10: saving an already-persisted row whose group link is unset performs no
group operation: the group table and the group-id counter are untouched, and
every row afterwards either still has its old state or is the written row,
whose link is none. -/
theorem c10_no_group_side_effect_when_unlinked (db : Db) (p : Position)
    (hg : p.group = none) :
    (updatePosition db p).1.groups = db.groups ∧
    (updatePosition db p).1.nextGroupId = db.nextGroupId ∧
    ∀ q ∈ (updatePosition db p).1.positions, q.group = none ∨ q ∈ db.positions := by
  simp only [updatePosition, hg]
  refine ⟨saveUpdateRow_groups db p, ?_, ?_⟩
  · unfold saveUpdateRow
    split
    · rfl
    · split
      · rfl
      · rfl
  · intro q hq
    unfold saveUpdateRow at hq
    split at hq
    · right
      exact hq
    · split at hq
      · right
        exact hq
      · rcases List.mem_map.mp hq with ⟨r, hr, hfr⟩
        by_cases hid : (r.id == p.id) = true
        · left
          rw [← hfr, if_pos hid]
          exact hg
        · right
          rw [← hfr, if_neg hid]
          exact hr

/-- C10 witness: re-saving A with the link cleared leaves the group table of
`dbAB` unchanged. -/
theorem c10_no_group_side_effect_when_unlinked_witness :
    (updatePosition dbAB pA0).1.groups = dbAB.groups :=
  (c10_no_group_side_effect_when_unlinked dbAB pA0 rfl).1

/-- C3: a successful create with no linked group appends exactly one new
AccessGroup named "Position: {name}" under the fresh group id, the group is
found under that id afterwards, and the stored row carries the link to it. -/
theorem c3_auto_group_on_create (db : Db) (pd : PositionData)
    (hg : pd.group = none)
    (hok : (createPosition db pd).2 = none)
    (hfp : ∀ q ∈ db.positions, q.id ≠ db.nextPositionId)
    (hfg : ∀ g ∈ db.groups, g.id ≠ db.nextGroupId) :
    (createPosition db pd).1.groups =
      db.groups ++ [⟨db.nextGroupId, "Position: " ++ pd.name⟩] ∧
    findGroup (createPosition db pd).1 db.nextGroupId =
      some ⟨db.nextGroupId, "Position: " ++ pd.name⟩ ∧
    findPosition (createPosition db pd).1 db.nextPositionId =
      some ⟨db.nextPositionId, pd.name, pd.code, pd.level, pd.parent, some db.nextGroupId⟩ := by
  have hgr := createPosition_groups_of_no_group db pd hg
  refine ⟨hgr, ?_, ?_⟩
  · unfold findGroup
    rw [hgr]
    rw [find?_append_of_none]
    · simp [List.find?]
    · rw [List.find?_eq_none]
      intro g hgmem
      simp [hfg g hgmem]
  · simp only [createPosition, hg] at hok ⊢
    have hpos := insertRow_ok_positions _ _ hok
    unfold findPosition findPos
    rw [hpos]
    rw [find?_append_of_none]
    · simp [List.find?]
    · rw [List.find?_eq_none]
      intro q hqmem
      simp [hfp q hqmem]

/-- C3 witness: creating A in the empty store yields group 0 named
"Position: A" and row 0 linked to it. -/
theorem c3_auto_group_on_create_witness :
    findPosition (createPosition dbEmpty pdA).1 dbEmpty.nextPositionId =
      some ⟨dbEmpty.nextPositionId, pdA.name, pdA.code, pdA.level, pdA.parent,
        some dbEmpty.nextGroupId⟩ :=
  (c3_auto_group_on_create dbEmpty pdA rfl rfl (by simp [dbEmpty])
    (by simp [dbEmpty])).2.2

/-- C4: when an existing group-linked position is saved under a changed name,
the linked group is renamed to "Position: {newName}" and an immediate lookup
of the group returns the new name; when the name is unchanged the group table
is untouched. -/
theorem c4_rename_cascades_to_group (db : Db) (p old : Position) (gid : Nat)
    (grp : AccessGroup)
    (hg : p.group = some gid)
    (hold : findPosition db p.id = some old) :
    (old.name ≠ p.name → findGroup db gid = some grp →
      findGroup (updatePosition db p).1 gid =
        some ⟨grp.id, "Position: " ++ p.name⟩) ∧
    (old.name = p.name → (updatePosition db p).1.groups = db.groups) := by
  constructor
  · intro hn hfg
    simp only [updatePosition, hg, hold]
    rw [if_pos hn]
    unfold findGroup
    rw [saveUpdateRow_groups]
    exact find?_rename db.groups gid ("Position: " ++ p.name) grp hfg
  · intro hn
    simp only [updatePosition, hg, hold]
    rw [if_neg (by simp [hn])]
    exact saveUpdateRow_groups db p

/-- C4 witness: renaming B to B2 renames group 1 to "Position: B2". -/
theorem c4_rename_cascades_to_group_witness :
    findGroup (updatePosition dbAB pB2).1 1 =
      some ⟨1, "Position: " ++ pB2.name⟩ :=
  (c4_rename_cascades_to_group dbAB pB2 posB 1 ⟨1, "Position: B"⟩ rfl
    (by decide)).1 (by decide) (by decide)

/-- C5 counterexample: hard delete of A, which has subordinate B, fails with
the protected error, yet the linked group 0 has already been deleted and the
link cleared before the failure. -/
theorem c5_group_deleted_before_protect_counterexample :
    (hardDelete dbAB 0).2 = some DeleteError.protectedError ∧
    findGroup dbAB 0 = some ⟨0, "Position: A"⟩ ∧
    findGroup (hardDelete dbAB 0).1 0 = none ∧
    findPosition (hardDelete dbAB 0).1 0 = some ⟨0, "A", "STF", 1, none, none⟩ := by
  decide

/-- C5 (amended): hard delete of a group-linked position with a subordinate
fails with `protectedError` (the HasSubordinates analogue) and leaves every
position row in place, but only after the linked group has been deleted:
the resulting tables are exactly the SET_NULL-cleared position table and the
group table without the linked group. -/
theorem c5_hard_delete_blocked_after_group_loss (db : Db) (pid gid : Nat)
    (p q : Position)
    (hp : findPosition db pid = some p)
    (hpg : p.group = some gid)
    (hq : q ∈ db.positions) (hqid : q.id ≠ pid) (hqpar : q.parent = some pid) :
    (hardDelete db pid).2 = some DeleteError.protectedError ∧
    (hardDelete db pid).1.positions =
      db.positions.map (fun r =>
        if r.group == some gid then { r with group := none } else r) ∧
    (hardDelete db pid).1.groups = db.groups.filter (fun g => g.id != gid) := by
  have hsub : hasSubordinates (deleteGroup db gid) pid = true := by
    unfold hasSubordinates deleteGroup
    rw [List.any_eq_true]
    refine ⟨if q.group == some gid then { q with group := none } else q,
      List.mem_map_of_mem _ hq, ?_⟩
    by_cases hqg : (q.group == some gid) = true
    · rw [if_pos hqg]
      simp [hqid, hqpar]
    · rw [if_neg hqg]
      simp [hqid, hqpar]
  simp only [hardDelete, hp, hpg]
  unfold deleteRow
  rw [if_pos hsub]
  exact ⟨rfl, rfl, rfl⟩

/-- C5 witness: hard delete of A in `dbAB` returns the protected error and the
expected cleared tables. -/
theorem c5_hard_delete_blocked_after_group_loss_witness :
    (hardDelete dbAB 0).2 = some DeleteError.protectedError :=
  (c5_hard_delete_blocked_after_group_loss dbAB 0 0 posA posB (by decide) rfl
    (by decide) (by decide) rfl).1

/-- C6: hard delete of a leaf position with a linked group succeeds, and
afterwards neither the position row nor the group row is found. -/
theorem c6_hard_delete_leaf (db : Db) (pid gid : Nat) (p : Position)
    (hp : findPosition db pid = some p)
    (hpg : p.group = some gid)
    (hleaf : ∀ q ∈ db.positions, q.id = pid ∨ q.parent ≠ some pid) :
    (hardDelete db pid).2 = none ∧
    findPosition (hardDelete db pid).1 pid = none ∧
    findGroup (hardDelete db pid).1 gid = none := by
  have hsub : hasSubordinates (deleteGroup db gid) pid = false := by
    unfold hasSubordinates deleteGroup
    rw [List.any_eq_false]
    intro r hr
    rcases List.mem_map.mp hr with ⟨q, hqmem, hfr⟩
    rcases hleaf q hqmem with h1 | h2
    · by_cases hqg : (q.group == some gid) = true
      · rw [if_pos hqg] at hfr
        rw [← hfr]
        simp [h1]
      · rw [if_neg hqg] at hfr
        rw [← hfr]
        simp [h1]
    · by_cases hqg : (q.group == some gid) = true
      · rw [if_pos hqg] at hfr
        rw [← hfr]
        simp [h2]
      · rw [if_neg hqg] at hfr
        rw [← hfr]
        simp [h2]
  have hns : ¬ hasSubordinates (deleteGroup db gid) pid = true := by
    simp [hsub]
  simp only [hardDelete, hp, hpg]
  unfold deleteRow
  rw [if_neg hns]
  refine ⟨rfl, ?_, ?_⟩
  · unfold findPosition findPos
    rw [List.find?_eq_none]
    intro r hr
    have hr2 := (List.mem_filter.mp hr).2
    simp only [bne_iff_ne, ne_eq] at hr2
    simp [hr2]
  · unfold findGroup deleteGroup
    rw [List.find?_eq_none]
    intro g hgmem
    have hg2 := (List.mem_filter.mp hgmem).2
    simp only [bne_iff_ne, ne_eq] at hg2
    simp [hg2]

/-- C6 witness: hard delete of leaf B removes row 1 and group 1. -/
theorem c6_hard_delete_leaf_witness :
    (hardDelete dbAB 1).2 = none ∧
    findPosition (hardDelete dbAB 1).1 1 = none ∧
    findGroup (hardDelete dbAB 1).1 1 = none :=
  c6_hard_delete_leaf dbAB 1 1 posB (by decide) rfl (by decide)

/-- C7: the unique constraint on `code` is preserved by every successful
create and update, an insert reusing an existing code fails with
`duplicateCode`, and an update moving a row onto the code of a different row
fails with `duplicateCode` (in each case once the earlier hierarchy check has
passed, since validation runs first). -/
theorem c7_code_uniqueness (db : Db) (pd : PositionData) (p other old : Position) :
    (codesUnique db → (createPosition db pd).2 = none →
      codesUnique (createPosition db pd).1) ∧
    (codesUnique db → idsUnique db → (updatePosition db p).2 = none →
      codesUnique (updatePosition db p).1) ∧
    (other ∈ db.positions → other.code = pd.code →
      cleanCheck db.positions pd.parent pd.level = none →
      (createPosition db pd).2 = some SaveError.duplicateCode) ∧
    (other ∈ db.positions → other.id ≠ p.id → other.code = p.code →
      findPosition db p.id = some old →
      cleanCheck db.positions p.parent p.level = none →
      (updatePosition db p).2 = some SaveError.duplicateCode) := by
  refine ⟨?_, ?_, ?_, ?_⟩
  · intro hu hok
    rcases createPosition_ok_positions db pd hok with ⟨g, hpos⟩
    have hnc : db.positions.any (fun q => q.code == pd.code) = false :=
      createPosition_ok_noclash db pd hok
    unfold codesUnique
    rw [hpos, List.pairwise_append]
    refine ⟨hu, by simp, ?_⟩
    intro a ha b hb
    simp only [List.mem_singleton] at hb
    subst hb
    have h3 := List.any_eq_false.mp hnc a ha
    simp only [beq_iff_eq] at h3
    simpa using h3
  · intro hu hi hok
    have hpos := updatePosition_ok_positions db p hok
    have hnc : db.positions.any (fun q => q.id != p.id && q.code == p.code) = false :=
      updatePosition_ok_noclash db p hok
    unfold codesUnique
    rw [hpos, List.pairwise_map]
    refine List.Pairwise.imp_of_mem ?_ (List.Pairwise.and hu hi)
    intro a b ha hb hab
    rcases hab with ⟨hcode, hid⟩
    by_cases hA : (a.id == p.id) = true <;> by_cases hB : (b.id == p.id) = true
    · exfalso
      apply hid
      simp only [beq_iff_eq] at hA hB
      rw [hA, hB]
    · rw [if_pos hA, if_neg hB]
      have h3 := List.any_eq_false.mp hnc b hb
      simp only [Bool.and_eq_true, bne_iff_ne, beq_iff_eq, not_and] at h3
      simp only [beq_iff_eq] at hB
      exact fun hEq => h3 hB hEq.symm
    · rw [if_neg hA, if_pos hB]
      have h3 := List.any_eq_false.mp hnc a ha
      simp only [Bool.and_eq_true, bne_iff_ne, beq_iff_eq, not_and] at h3
      simp only [beq_iff_eq] at hA
      exact h3 hA
    · rw [if_neg hA, if_neg hB]
      exact hcode
  · intro hmem hcode hclean
    have hclash : codeClashOnCreate db pd.code = true := by
      unfold codeClashOnCreate
      rw [List.any_eq_true]
      exact ⟨other, hmem, by simp [hcode]⟩
    cases hg : pd.group with
    | none =>
      simp only [createPosition, hg]
      have h2 := insertRow_clash
        { db with
            groups := db.groups ++ [⟨db.nextGroupId, "Position: " ++ pd.name⟩],
            nextGroupId := db.nextGroupId + 1 }
        { pd with group := some db.nextGroupId } hclean hclash
      exact congrArg Prod.snd h2
    | some g =>
      simp only [createPosition, hg]
      have h2 := insertRow_clash db pd hclean hclash
      exact congrArg Prod.snd h2
  · intro hmem hne hcode hold hclean
    have hclash : codeClashOnUpdate db p.id p.code = true := by
      unfold codeClashOnUpdate
      rw [List.any_eq_true]
      exact ⟨other, hmem, by simp [hcode, hne]⟩
    cases hg : p.group with
    | none =>
      simp only [updatePosition, hg]
      have h2 := saveUpdateRow_clash db p hclean hclash
      exact congrArg Prod.snd h2
    | some gid =>
      by_cases hn : old.name ≠ p.name
      · simp only [updatePosition, hg, hold]
        rw [if_pos hn]
        have h2 := saveUpdateRow_clash
          { db with
              groups := db.groups.map (fun g =>
                if g.id == gid then { g with name := "Position: " ++ p.name } else g) }
          p hclean hclash
        exact congrArg Prod.snd h2
      · simp only [updatePosition, hg, hold]
        rw [if_neg hn]
        have h2 := saveUpdateRow_clash db p hclean hclash
        exact congrArg Prod.snd h2

/-- C7 witness: creating D with the already-taken code STF in `dbAB` fails
with `duplicateCode`. -/
theorem c7_code_uniqueness_witness :
    (createPosition dbAB pdD).2 = some SaveError.duplicateCode :=
  (c7_code_uniqueness dbAB pdD posA posA posA).2.2.1 (by decide) rfl rfl

/-- C8: membership sync projects the holders of a position onto its linked
group: every user holding the position is a member of the linked group
afterwards and of no other position-linked group, and when the position has
no linked group the sync is a no-op rather than an error. Modelled from the
spec (section 4.2), since the operation has no implementation under src. -/
theorem c8_sync_members_exact_group (st : SyncState) (p : Position) (g : Nat)
    (u : SyncUser)
    (hg : p.group = some g) (hu : u ∈ st.users) (hp : u.position = some p.id) :
    ((u.id, g) ∈ (syncMembers st p).memberships ∧
      ∀ g2, (u.id, g2) ∈ (syncMembers st p).memberships →
        positionLinkedGroup st g2 = true → g2 = g) ∧
    (∀ st2 q, q.group = none → syncMembers st2 q = st2) := by
  have hholds : holdsPosition st p.id u.id = true := by
    unfold holdsPosition
    rw [List.any_eq_true]
    exact ⟨u, hu, by simp [hp]⟩
  refine ⟨⟨?_, ?_⟩, ?_⟩
  · simp only [syncMembers, hg]
    rw [List.mem_append]
    right
    rw [List.mem_map]
    exact ⟨u, List.mem_filter.mpr ⟨hu, by simp [hp]⟩, rfl⟩
  · intro g2 hmem hlink
    simp only [syncMembers, hg] at hmem
    rw [List.mem_append] at hmem
    rcases hmem with hmem | hmem
    · exfalso
      have h2 := (List.mem_filter.mp hmem).2
      simp [hholds, hlink] at h2
    · rw [List.mem_map] at hmem
      rcases hmem with ⟨u2, hu2, heq⟩
      have := congrArg Prod.snd heq
      simpa using this.symm
  · intro st2 q hq
    simp [syncMembers, hq]

/-- C8 witness: user 7 holds position B linked to group 1, so after the sync
the pair (7, 1) is a membership row. -/
theorem c8_sync_members_exact_group_witness :
    posB.group = some 1 ∧
    (7, 1) ∈ (syncMembers stW posB).memberships :=
  ⟨rfl, ((c8_sync_members_exact_group stW posB 1 ⟨7, some 1⟩ rfl (by decide)
    rfl).1).1⟩

end EmployeeMgmt
